import Mathlib

/-!
Shallow embedding of the portfolio analytics engine
(`portfolio_manager.py`, `database_manager.py`) and proofs of the
specified properties.  Monetary quantities, prices, weights and returns
are modelled as exact rationals; the square roots used by the
annualization steps are modelled over the reals.
-/

namespace Portfolio

/-- Arithmetic mean of a list of rationals (`pandas.Series.mean` /
`np.mean`); division by zero for the empty list yields 0 in `ℚ`. -/
def listMean (xs : List ℚ) : ℚ := xs.sum / (xs.length : ℚ)

/-- Sum of the allocation weights of a proposed ticker-to-weight map
(`sum(allocations.values())`). -/
def sumWeights (allocations : List (String × ℚ)) : ℚ :=
  (allocations.map Prod.snd).sum

/-- Embedding of `PortfolioManager._validate_allocations`: the proposed
map is accepted iff the weights sum to 1.0 within 1e-6. -/
def validate_allocations (allocations : List (String × ℚ)) : Bool :=
  decide (|sumWeights allocations - 1| < 1 / 1000000)

/-- Annualized return, `returns.mean() * 252`. -/
def annualizedReturn (returns : List ℚ) : ℚ := listMean returns * 252

/-- Sample variance with one delta degree of freedom, the square of
`returns.std()` (pandas default `ddof=1`). -/
def sampleVar (xs : List ℚ) : ℚ :=
  (xs.map (fun x => (x - listMean xs) ^ 2)).sum / ((xs.length : ℚ) - 1)

/-- Annualized volatility, `returns.std() * np.sqrt(252)`. -/
noncomputable def annualizedVol (returns : List ℚ) : ℝ :=
  Real.sqrt (sampleVar returns) * Real.sqrt 252

/-- Embedding of the Sharpe-ratio expression of
`get_portfolio_performance`:
`annualized_return / annualized_volatility if annualized_volatility != 0 else 0`. -/
noncomputable def sharpeRatioOf (returns : List ℚ) : ℝ :=
  if annualizedVol returns ≠ 0 then (annualizedReturn returns : ℝ) / annualizedVol returns
  else 0

/-- The downside standard deviation of
`PortfolioManager._calculate_sortino_ratio`:
`np.sqrt(np.mean(downside_returns**2))`. -/
noncomputable def downsideStd (returns : List ℚ) : ℝ :=
  Real.sqrt ((listMean ((returns.filter (fun r => r < 0)).map (fun r => r ^ 2)) : ℚ))

/-- Embedding of `PortfolioManager._calculate_sortino_ratio`: 0 when
there are no negative returns, 0 when the downside standard deviation is
0, otherwise `(returns.mean() * 252) / (downside_std * np.sqrt(252))`. -/
noncomputable def sortinoRatioOf (returns : List ℚ) : ℝ :=
  if (returns.filter (fun r => r < 0)).length = 0 then 0
  else if downsideStd returns = 0 then 0
  else ((listMean returns * 252 : ℚ) : ℝ) / (downsideStd returns * Real.sqrt 252)

/-- Embedding of `PortfolioManager._calculate_calmar_ratio`. -/
def calmarRatioOf (annualized_return max_drawdown : ℚ) : ℚ :=
  if max_drawdown = 0 then 0 else annualized_return / |max_drawdown|

/-- Helper for `(1 + returns).cumprod()`: running product of the factors
`1 + r`, carrying the accumulated product. -/
def cumprodAux (acc : ℚ) : List ℚ → List ℚ
  | [] => []
  | r :: rs => (acc * (1 + r)) :: cumprodAux (acc * (1 + r)) rs

/-- The cumulative-return curve `(1 + returns).cumprod()`. -/
def cumulativeReturns (returns : List ℚ) : List ℚ := cumprodAux 1 returns

/-- Helper for `cumulative_returns.expanding().max()`: running maximum,
carrying the maximum seen so far. -/
def runningMaxAux (m : ℚ) : List ℚ → List ℚ
  | [] => []
  | x :: xs => max m x :: runningMaxAux (max m x) xs

/-- The expanding maximum `cumulative_returns.expanding().max()`. -/
def runningMax : List ℚ → List ℚ
  | [] => []
  | x :: xs => runningMaxAux x (x :: xs)

/-- The drawdown curve `(cumulative_returns - rolling_max) / rolling_max`. -/
def drawdowns (returns : List ℚ) : List ℚ :=
  List.zipWith (fun c m => (c - m) / m) (cumulativeReturns returns)
    (runningMax (cumulativeReturns returns))

/-- Minimum of a list (`Series.min()`); 0 on the empty list, which the
caller never hits. -/
def listMin : List ℚ → ℚ
  | [] => 0
  | x :: xs => xs.foldl min x

/-- The quantity `max_drawdown = drawdowns.min()` in `get_portfolio_performance`. -/
def maxDrawdown (returns : List ℚ) : ℚ := listMin (drawdowns returns)

/-- The data sorted ascending, as `np.percentile` sorts its input. -/
def sortedOf (xs : List ℚ) : List ℚ := List.insertionSort (· ≤ ·) xs

/-- The virtual index `q/100 * (n-1)` used by the default linear
interpolation of `np.percentile`. -/
def pIndex (xs : List ℚ) (q : ℚ) : ℚ := q / 100 * (((sortedOf xs).length : ℚ) - 1)

/-- The lower neighbouring order statistic's position,
`floor(q/100 * (n-1))`. -/
def pLow (xs : List ℚ) (q : ℚ) : ℕ := (⌊pIndex xs q⌋).toNat

/-- Embedding of `np.percentile(xs, q)` with the default linear
interpolation: on the ascending sorted data, interpolate between the
order statistics below and above the virtual index (the upper index,
when out of range, is clipped — the interpolation weight is then 0). -/
def percentileOf (xs : List ℚ) (q : ℚ) : ℚ :=
  (sortedOf xs).getD (pLow xs q) 0 +
    (pIndex xs q - (pLow xs q : ℚ)) *
      ((sortedOf xs).getD (pLow xs q + 1) ((sortedOf xs).getD (pLow xs q) 0) -
        (sortedOf xs).getD (pLow xs q) 0)

/-- Embedding of `PortfolioManager._calculate_var`:
`np.percentile(returns, (1 - confidence_level) * 100)`. -/
def calcVar (returns : List ℚ) (confidence_level : ℚ) : ℚ :=
  percentileOf returns ((1 - confidence_level) * 100)

/-- Embedding of `PortfolioManager._calculate_cvar`: the mean of the
returns that are `≤` the VaR threshold. -/
def calcCvar (returns : List ℚ) (confidence_level : ℚ) : ℚ :=
  listMean (returns.filter (fun r => r ≤ calcVar returns confidence_level))

/-- A date-indexed series (a `pandas.Series`): its index as a finite set
of dates plus a value function (only meaningful on the index). -/
structure Series where
  dates : Finset ℕ
  val : ℕ → ℚ

/-- The initial `pd.Series()` of `get_portfolio_performance`. -/
def emptySeries : Series := ⟨∅, fun _ => 0⟩

/-- Embedding of `Series.add(other, fill_value=0)`: index union, a side
missing a date contributes the fill value 0 there. -/
def seriesAdd (a b : Series) : Series :=
  ⟨a.dates ∪ b.dates, fun t =>
    (if t ∈ a.dates then a.val t else 0) + (if t ∈ b.dates then b.val t else 0)⟩

/-- Scalar multiplication of a series (`series * allocation`). -/
def scaleSeries (w : ℚ) (s : Series) : Series := ⟨s.dates, fun t => w * s.val t⟩

/-- Embedding of `Close.pct_change()` on a (date, close) bar list in
calendar order: the first bar has no return, every later bar `t` gets
`(close[t] - close[t-1]) / close[t-1]` dated at `t`. -/
def pctChange (bars : List (ℕ × ℚ)) : List (ℕ × ℚ) :=
  List.zipWith (fun prev cur => (cur.1, (cur.2 - prev.2) / prev.2)) bars bars.tail

/-- Value of a (date, value) list at a date: first match, 0 if absent. -/
def lookupVal (l : List (ℕ × ℚ)) (t : ℕ) : ℚ :=
  ((l.find? (fun p => decide (p.1 = t))).map Prod.snd).getD 0

/-- View a (date, value) list as a `Series`. -/
def toSeries (l : List (ℕ × ℚ)) : Series :=
  ⟨(l.map Prod.fst).toFinset, fun t => lookupVal l t⟩

/-- The daily-return series of one constituent,
`pct_change` of the Close column of `hist_data`. -/
def returnsSeries (bars : List (ℕ × ℚ)) : Series := toSeries (pctChange bars)

/-- Embedding of the aggregation loop of `get_portfolio_performance`
(lines 92-100): fold the weighted constituent return series together
with `add(..., fill_value=0)`, starting from the empty series (the
code's first-assignment branch coincides with adding to the empty
series). -/
def aggregateReturns (constituents : List (List (ℕ × ℚ) × ℚ)) : Series :=
  constituents.foldl (fun acc c => seriesAdd acc (scaleSeries c.2 (returnsSeries c.1)))
    emptySeries

/-- Union of the constituents' return dates. -/
def datesUnion (constituents : List (List (ℕ × ℚ) × ℚ)) : Finset ℕ :=
  constituents.foldr (fun c u => (returnsSeries c.1).dates ∪ u) ∅

/-- Embedding of the alignment and division of `calculate_trade_ratio`:
restrict both close series to the intersection of their dates and divide
(the division of the two Close columns after `loc[common_dates]`). -/
def tradeRatioOf (histA histB : Series) : Series :=
  ⟨histA.dates ∩ histB.dates, fun t => histA.val t / histB.val t⟩

/-- The database state relevant to rebalancing: the `portfolios` table
(ids) and the `portfolio_stocks` junction table keyed by
`(portfolio_id, ticker)`. -/
structure DB where
  portfolios : List ℕ
  portfolio_stocks : List ((ℕ × String) × ℚ)

/-- Embedding of `INSERT OR REPLACE` on the primary key `(portfolio_id, ticker)`:
replace the existing row for the key, or append a new row. -/
def upsertStock : List ((ℕ × String) × ℚ) → (ℕ × String) → ℚ → List ((ℕ × String) × ℚ)
  | [], k, v => [(k, v)]
  | (k', v') :: rest, k, v =>
    if k' = k then (k, v) :: rest else (k', v') :: upsertStock rest k v

/-- Embedding of `DatabaseManager.add_stock_to_portfolio`. -/
def db_add_stock_to_portfolio (db : DB) (portfolio_id : ℕ) (ticker : String)
    (allocation : ℚ) : DB :=
  { db with portfolio_stocks := upsertStock db.portfolio_stocks (portfolio_id, ticker) allocation }

/-- The allocation stored for a ticker in a portfolio, if any. -/
def lookupAllocation (db : DB) (portfolio_id : ℕ) (ticker : String) : Option ℚ :=
  (db.portfolio_stocks.find? (fun e => decide (e.1 = (portfolio_id, ticker)))).map Prod.snd

/-- Embedding of `PortfolioManager.rebalance_portfolio`: look up the
portfolio, validate the target allocations, then upsert each supplied
(ticker, allocation) pair; on any failed check return `false` with the
state untouched. -/
def rebalance_portfolio (db : DB) (portfolio_id : ℕ)
    (target_allocations : List (String × ℚ)) : Bool × DB :=
  if db.portfolios.contains portfolio_id then
    if validate_allocations target_allocations then
      (true,
        target_allocations.foldl
          (fun d tw => db_add_stock_to_portfolio d portfolio_id tw.1 tw.2) db)
    else (false, db)
  else (false, db)

/-- The metric fields of one `PerformanceReport` row as assembled by
`compare_portfolios`. -/
structure PerfMetrics where
  totalReturn : ℚ
  annualized : ℚ
  volatility : ℚ
  sharpe : ℚ
  maxDd : ℚ
  sortino : ℚ
  calmar : ℚ
  beta : ℚ
  alpha : ℚ
deriving DecidableEq

/-- The parts of the `comparison` dictionary of `compare_portfolios`
that the control flow decides on: the collected portfolios (whose
metrics component is `some` exactly when the report carries a populated
metrics dict, i.e. its return series was nonempty) and the metrics table
with one row per collected portfolio. -/
structure Comparison where
  portfolios : List (ℕ × String × Option PerfMetrics)
  metricsRows : List (String × PerfMetrics)
deriving DecidableEq

/-- The collection loop of `compare_portfolios` (lines 154-163): per
requested id, keep the portfolios for which both `get_portfolio` and
`get_portfolio_performance` succeed (the argument `getPerf` stands for
that composite lookup; a returned report is always a truthy dict, so the
inner guard only filters out the `None` results). -/
def collectPerf (getPerf : ℕ → Option (String × Option PerfMetrics))
    (portfolio_ids : List ℕ) : List (ℕ × String × Option PerfMetrics) :=
  portfolio_ids.filterMap (fun i => (getPerf i).map (fun nm => (i, nm.1, nm.2)))

/-- The metrics-row loop of `compare_portfolios` (lines 169-183): one
row per collected portfolio, projecting the fields of its metrics dict;
a collected report whose metrics dict is empty raises a `KeyError` at
the total_return access, modelled as `none` here (the surrounding
`except` handler then makes the whole comparison absent). -/
def metricsRowsOf : List (ℕ × String × Option PerfMetrics) → Option (List (String × PerfMetrics))
  | [] => some []
  | (_, _, none) :: _ => none
  | (_, nm, some m) :: rest => (metricsRowsOf rest).map (fun rows => (nm, m) :: rows)

/-- Embedding of `PortfolioManager.compare_portfolios`: collect the
analyzable portfolios, return `none` when none were collected, then
build the metrics table; a `KeyError` while building a row (a collected
report with an empty metrics dict) aborts the whole comparison to
`none`, otherwise the comparison carries one metrics row per collected
portfolio. -/
def compare_portfolios (getPerf : ℕ → Option (String × Option PerfMetrics))
    (portfolio_ids : List ℕ) : Option Comparison :=
  if collectPerf getPerf portfolio_ids = [] then none
  else
    match metricsRowsOf (collectPerf getPerf portfolio_ids) with
    | none => none
    | some rows => some ⟨collectPerf getPerf portfolio_ids, rows⟩

/-- The per-ticker data `get_portfolio_performance` reads from
`self.portfolio`: shares, the currentPrice and the sector fields of `info`
(the dict-lookup defaults are applied before this model). -/
structure StockInfo where
  shares : ℚ
  currentPrice : ℚ
  sector : String

/-- Embedding of the sector-allocation update of
`get_portfolio_performance` (lines 75-79): add the stock's value to its
sector's bucket, creating the bucket on first use. -/
def addToSector (sector : String) (value : ℚ) : List (String × ℚ) → List (String × ℚ)
  | [] => [(sector, value)]
  | (s, v) :: rest =>
    if s = sector then (s, v + value) :: rest else (s, v) :: addToSector sector value rest

/-- One iteration of the valuation loop of `get_portfolio_performance`
(lines 63-90): for a portfolio stock found in `self.portfolio`, compute
`value = current_price * shares * allocation`, add it to the sector
bucket and to the running `total_value`; a stock missing from
`self.portfolio` is skipped. -/
def processStock (univ : String → Option StockInfo)
    (acc : ℚ × List (String × ℚ)) (st : String × ℚ) : ℚ × List (String × ℚ) :=
  match univ st.1 with
  | none => acc
  | some info =>
    (acc.1 + info.currentPrice * info.shares * st.2,
      addToSector info.sector (info.currentPrice * info.shares * st.2) acc.2)

/-- The whole valuation loop: fold `processStock` over the portfolio's
stocks starting from total 0 and no sector buckets. -/
def processStocks (univ : String → Option StockInfo)
    (stocks : List (String × ℚ)) : ℚ × List (String × ℚ) :=
  stocks.foldl (processStock univ) (0, [])

/-- A composite lookup under which exactly portfolio 1 yields a usable
report, with populated metrics; used to exhibit the behaviour of
`compare_portfolios` on a single fully-usable portfolio. -/
def onePerf : ℕ → Option (String × Option PerfMetrics) :=
  fun i => if i = 1 then some ("P", some ⟨0, 0, 0, 0, 0, 0, 0, 0, 0⟩) else none

/-- C1 counterexample: with exactly one usable portfolio (the lookup
`onePerf` over the requested ids `[1]`), `compare_portfolios` does not
return the empty/absent report: it returns a comparison whose metrics
table has exactly one row, contradicting the claim that fewer than 2
usable portfolios always yield `InsufficientData`. -/
theorem C1_counterexample :
    (collectPerf onePerf [1]).length = 1 ∧
    (compare_portfolios onePerf [1]).map (fun c => c.metricsRows.length) = some 1 := by
  decide

/-- The metrics table, when it is built at all, has one row per
collected portfolio. -/
theorem metricsRowsOf_length :
    ∀ (ps : List (ℕ × String × Option PerfMetrics)) (rows : List (String × PerfMetrics)),
      metricsRowsOf ps = some rows → rows.length = ps.length := by
  intro ps
  induction ps with
  | nil =>
    intro rows h
    simp only [metricsRowsOf, Option.some.injEq] at h
    simp [← h]
  | cons p rest ih =>
    obtain ⟨i, nm, mo⟩ := p
    intro rows h
    cases mo with
    | none => simp [metricsRowsOf] at h
    | some m =>
      simp only [metricsRowsOf, Option.map_eq_some'] at h
      obtain ⟨rs, hrs, hrows⟩ := h
      subst hrows
      simp [ih rs hrs]

/-- Building the metrics table fails exactly when some collected
portfolio carries an empty metrics dict. -/
theorem metricsRowsOf_eq_none_iff :
    ∀ ps : List (ℕ × String × Option PerfMetrics),
      metricsRowsOf ps = none ↔ ∃ p ∈ ps, p.2.2 = none := by
  intro ps
  induction ps with
  | nil => simp [metricsRowsOf]
  | cons p rest ih =>
    obtain ⟨i, nm, mo⟩ := p
    cases mo with
    | none => simp [metricsRowsOf]
    | some m => simp [metricsRowsOf, ih]

/-- C1 (amended): `compare_portfolios` returns the absent report exactly
when zero requested portfolios yield a performance report at all, or
some collected report carries no computed metrics (empty return series:
the metrics-row loop then raises and the handler returns the absent
report); whenever at least one portfolio is collected and every
collected report has metrics — in particular a single fully-usable
portfolio — it returns a comparison with one metrics row per collected
portfolio, a single-row report in the one-portfolio case. -/
theorem C1_compare_rows (getPerf : ℕ → Option (String × Option PerfMetrics))
    (portfolio_ids : List ℕ) :
    (compare_portfolios getPerf portfolio_ids = none ↔
      (collectPerf getPerf portfolio_ids = [] ∨
        ∃ p ∈ collectPerf getPerf portfolio_ids, p.2.2 = none)) ∧
    (∀ c, compare_portfolios getPerf portfolio_ids = some c →
      c.metricsRows.length = (collectPerf getPerf portfolio_ids).length) := by
  by_cases hempty : collectPerf getPerf portfolio_ids = []
  · constructor
    · simp [compare_portfolios, hempty]
    · intro c hc
      simp [compare_portfolios, hempty] at hc
  · cases hrows : metricsRowsOf (collectPerf getPerf portfolio_ids) with
    | none =>
      constructor
      · simp only [compare_portfolios, if_neg hempty, hrows]
        simp [hempty, (metricsRowsOf_eq_none_iff _).mp hrows]
      · intro c hc
        simp only [compare_portfolios, if_neg hempty, hrows] at hc
        exact absurd hc (by simp)
    | some rows =>
      have hnone : ¬ ∃ p ∈ collectPerf getPerf portfolio_ids, p.2.2 = none := by
        rw [← metricsRowsOf_eq_none_iff]
        simp [hrows]
      constructor
      · simp only [compare_portfolios, if_neg hempty, hrows]
        simp [hempty, hnone]
      · intro c hc
        simp only [compare_portfolios, if_neg hempty, hrows, Option.some.injEq] at hc
        subst hc
        simp [metricsRowsOf_length _ rows hrows]

/-- Witness for C1's amended theorem at the concrete one-portfolio
input. -/
theorem C1_compare_rows_witness :
    compare_portfolios onePerf [1] =
      some ⟨[(1, "P", some ⟨0, 0, 0, 0, 0, 0, 0, 0, 0⟩)],
        [("P", ⟨0, 0, 0, 0, 0, 0, 0, 0, 0⟩)]⟩ ∧
    (⟨[(1, "P", some ⟨0, 0, 0, 0, 0, 0, 0, 0, 0⟩)],
        [("P", ⟨0, 0, 0, 0, 0, 0, 0, 0, 0⟩)]⟩ :
        Comparison).metricsRows.length = (collectPerf onePerf [1]).length :=
  ⟨by decide, (C1_compare_rows onePerf [1]).2 _ (by decide)⟩

/-- C2 counterexample: the proposed map A ↦ 3/2, B ↦ -1/2 sums to 1 and
is accepted by `validate_allocations`, although it contains weights
outside [0,1] — refuting the claimed per-weight range check. -/
theorem C2_counterexample :
    validate_allocations [("A", 3 / 2), ("B", -1 / 2)] = true ∧
    ¬ (∀ p ∈ [(("A" : String), (3 : ℚ) / 2), ("B", -1 / 2)], 0 ≤ p.2 ∧ p.2 ≤ 1) := by
  constructor
  · simp only [validate_allocations, sumWeights, List.map_cons, List.map_nil,
      List.sum_cons, List.sum_nil, decide_eq_true_eq, abs_lt]
    norm_num
  · intro h
    have := (h ("A", 3 / 2) (by simp)).2
    norm_num at this

/-- C2 (amended): `validate_allocations` accepts a proposed
ticker-to-weight map iff the sum of the weights is within 1e-6 of 1.0;
individual weights are not range-checked. -/
theorem C2_validate_iff (allocations : List (String × ℚ)) :
    validate_allocations allocations = true ↔
      |sumWeights allocations - 1| < 1 / 1000000 := by
  simp [validate_allocations]

/-- Witness for C2's amended theorem at a concrete accepted map. -/
theorem C2_validate_iff_witness :
    validate_allocations [("A", 1)] = true ↔
      |sumWeights [("A", 1)] - 1| < 1 / 1000000 :=
  C2_validate_iff [("A", 1)]

/-- C3: a rebalance request whose proposed weights fail validation is a
no-op — `rebalance_portfolio` reports failure and returns the database
state unchanged. -/
theorem C3_invalid_rebalance_noop (db : DB) (portfolio_id : ℕ)
    (target_allocations : List (String × ℚ))
    (h : validate_allocations target_allocations = false) :
    rebalance_portfolio db portfolio_id target_allocations = (false, db) := by
  unfold rebalance_portfolio
  cases hc : db.portfolios.contains portfolio_id <;> simp [hc, h]

/-- Witness for C3 at the spec's scenario: weights A ↦ 0.6, B ↦ 0.5
(sum 1.1) are rejected and the prior allocations survive. -/
theorem C3_invalid_rebalance_noop_witness :
    validate_allocations [("A", 3 / 5), ("B", 1 / 2)] = false ∧
    rebalance_portfolio ⟨[1], [((1, "A"), 3 / 5), ((1, "B"), 2 / 5)]⟩ 1
        [("A", 3 / 5), ("B", 1 / 2)] =
      (false, ⟨[1], [((1, "A"), 3 / 5), ((1, "B"), 2 / 5)]⟩) := by
  have hv : validate_allocations [("A", 3 / 5), ("B", 1 / 2)] = false := by
    simp only [validate_allocations, sumWeights, List.map_cons, List.map_nil,
      List.sum_cons, List.sum_nil, decide_eq_false_iff_not, abs_lt, not_and, not_lt]
    norm_num
  exact ⟨hv, C3_invalid_rebalance_noop _ _ _ hv⟩

/-- Looking up the upserted key finds the new allocation. -/
theorem find?_upsertStock_self (k : ℕ × String) (v : ℚ) :
    ∀ l : List ((ℕ × String) × ℚ),
      ((upsertStock l k v).find? (fun e => decide (e.1 = k))).map Prod.snd = some v := by
  intro l
  induction l with
  | nil => simp [upsertStock, List.find?]
  | cons a rest ih =>
    obtain ⟨k', v'⟩ := a
    by_cases hk : k' = k
    · subst hk
      simp [upsertStock, List.find?]
    · simp [upsertStock, if_neg hk, List.find?, hk, ih]

/-- Upserting one key leaves lookups of any other key unchanged. -/
theorem find?_upsertStock_ne (k k2 : ℕ × String) (v : ℚ) (h : k2 ≠ k) :
    ∀ l : List ((ℕ × String) × ℚ),
      (upsertStock l k v).find? (fun e => decide (e.1 = k2)) =
        l.find? (fun e => decide (e.1 = k2)) := by
  intro l
  induction l with
  | nil => simp [upsertStock, List.find?, Ne.symm h]
  | cons a rest ih =>
    obtain ⟨k', v'⟩ := a
    by_cases hk : k' = k
    · subst hk
      simp [upsertStock, List.find?, Ne.symm h]
    · simp only [upsertStock, if_neg hk, List.find?, decide_eq_true_eq]
      by_cases h2 : k' = k2
      · simp [h2]
      · simp [h2, ih]

/-- Folding the per-ticker upserts of `rebalance_portfolio` over tickers
that do not mention `ticker` leaves its stored allocation unchanged. -/
theorem foldl_add_stock_not_mem (portfolio_id : ℕ) (ticker : String) :
    ∀ (target : List (String × ℚ)) (db : DB), ticker ∉ target.map Prod.fst →
      lookupAllocation
          (target.foldl (fun d tw => db_add_stock_to_portfolio d portfolio_id tw.1 tw.2) db)
          portfolio_id ticker =
        lookupAllocation db portfolio_id ticker := by
  intro target
  induction target with
  | nil => intro db _; rfl
  | cons tw rest ih =>
    intro db hmem
    simp only [List.map_cons, List.mem_cons, not_or] at hmem
    simp only [List.foldl_cons]
    rw [ih _ hmem.2]
    unfold lookupAllocation db_add_stock_to_portfolio
    rw [find?_upsertStock_ne _ _ _ (by simp [hmem.1])]

/-- After the per-ticker upserts of a successful rebalance, every ticker
of the supplied map stores its supplied allocation (keys distinct). -/
theorem foldl_add_stock_mem (portfolio_id : ℕ) :
    ∀ (target : List (String × ℚ)) (db : DB), (target.map Prod.fst).Nodup →
      ∀ tw ∈ target,
        lookupAllocation
            (target.foldl (fun d tw => db_add_stock_to_portfolio d portfolio_id tw.1 tw.2) db)
            portfolio_id tw.1 = some tw.2 := by
  intro target
  induction target with
  | nil => intro db _ tw h; simp at h
  | cons hd rest ih =>
    intro db hnodup tw hmem
    simp only [List.map_cons, List.nodup_cons] at hnodup
    simp only [List.foldl_cons]
    rcases List.mem_cons.1 hmem with rfl | hrest
    · rw [foldl_add_stock_not_mem portfolio_id tw.1 rest _ hnodup.1]
      unfold lookupAllocation db_add_stock_to_portfolio
      exact find?_upsertStock_self _ _ _
    · exact ih _ hnodup.2 tw hrest

/-- C4: a successful rebalance replaces the allocation of exactly the
tickers present in the supplied map and keeps the stored allocation of
every other ticker of the portfolio — upsert-per-ticker, not
whole-portfolio replace. -/
theorem C4_rebalance_upsert_frame (db : DB) (portfolio_id : ℕ)
    (target_allocations : List (String × ℚ))
    (hnodup : (target_allocations.map Prod.fst).Nodup)
    (hsucc : (rebalance_portfolio db portfolio_id target_allocations).1 = true) :
    (∀ tw ∈ target_allocations,
      lookupAllocation (rebalance_portfolio db portfolio_id target_allocations).2
        portfolio_id tw.1 = some tw.2) ∧
    (∀ ticker, ticker ∉ target_allocations.map Prod.fst →
      lookupAllocation (rebalance_portfolio db portfolio_id target_allocations).2
        portfolio_id ticker = lookupAllocation db portfolio_id ticker) := by
  unfold rebalance_portfolio at hsucc ⊢
  split_ifs at hsucc ⊢ with h1 h2
  · exact ⟨foldl_add_stock_mem portfolio_id target_allocations db hnodup,
      fun ticker ht => foldl_add_stock_not_mem portfolio_id ticker target_allocations db ht⟩

/-- Concrete database for the C4 witness: portfolio 1 holds A, B and C. -/
def dbW : DB := ⟨[1], [((1, "A"), 1 / 2), ((1, "B"), 1 / 2), ((1, "C"), 1 / 4)]⟩

/-- Concrete rebalance target for the C4 witness: A ↦ 0.3, B ↦ 0.7. -/
def tgtW : List (String × ℚ) := [("A", 3 / 10), ("B", 7 / 10)]

/-- Witness for C4: rebalancing portfolio 1 of `dbW` to `tgtW` succeeds,
sets A to 3/10 and leaves the untouched ticker C at its prior 1/4. -/
theorem C4_rebalance_upsert_frame_witness :
    lookupAllocation (rebalance_portfolio dbW 1 tgtW).2 1 "A" = some (3 / 10) ∧
    lookupAllocation (rebalance_portfolio dbW 1 tgtW).2 1 "C" =
      lookupAllocation dbW 1 "C" := by
  have hval : validate_allocations tgtW = true := by
    simp only [tgtW, validate_allocations, sumWeights, List.map_cons, List.map_nil,
      List.sum_cons, List.sum_nil, decide_eq_true_eq, abs_lt]
    norm_num
  have hsucc : (rebalance_portfolio dbW 1 tgtW).1 = true := by
    simp [rebalance_portfolio, dbW, hval]
  have hnodup : (tgtW.map Prod.fst).Nodup := by
    simp [tgtW]
  exact ⟨(C4_rebalance_upsert_frame dbW 1 tgtW hnodup hsucc).1 ("A", 3 / 10) (by simp [tgtW]),
    (C4_rebalance_upsert_frame dbW 1 tgtW hnodup hsucc).2 "C" (by simp [tgtW])⟩

/-- C5: each risk-adjusted ratio is exactly 0 on a degenerate
denominator — Sharpe when the annualized volatility is 0, Sortino when
there are no negative returns or the downside deviation is 0, Calmar
when the max drawdown is 0. -/
theorem C5_zero_denominator_metrics (returns : List ℚ)
    (annualized_return max_drawdown : ℚ) :
    (2 ≤ returns.length → annualizedVol returns = 0 → sharpeRatioOf returns = 0) ∧
    ((returns.filter (fun r => r < 0) = [] ∨ downsideStd returns = 0) →
      sortinoRatioOf returns = 0) ∧
    (max_drawdown = 0 → calmarRatioOf annualized_return max_drawdown = 0) := by
  refine ⟨fun _ h => ?_, fun h => ?_, fun h => ?_⟩
  · simp [sharpeRatioOf, h]
  · rcases h with h | h
    · simp [sortinoRatioOf, h]
    · simp [sortinoRatioOf, h]
  · simp [calmarRatioOf, h]

/-- Witness for C5 at concrete inputs: a constant positive return
series (zero volatility, empty downside set) and a zero max drawdown. -/
theorem C5_zero_denominator_metrics_witness :
    sharpeRatioOf [1 / 100, 1 / 100] = 0 ∧ sortinoRatioOf [1 / 100, 1 / 100] = 0 ∧
    calmarRatioOf 5 0 = 0 := by
  have hvar : sampleVar [1 / 100, 1 / 100] = 0 := by
    norm_num [sampleVar, listMean]
  have hvol : annualizedVol [1 / 100, 1 / 100] = 0 := by
    rw [annualizedVol, hvar]
    simp
  have hfil : ([1 / 100, 1 / 100] : List ℚ).filter (fun r => r < 0) = [] := by
    norm_num [List.filter]
  exact ⟨(C5_zero_denominator_metrics [1 / 100, 1 / 100] 5 0).1 (by norm_num) hvol,
    (C5_zero_denominator_metrics [1 / 100, 1 / 100] 5 0).2.1 (Or.inl hfil),
    (C5_zero_denominator_metrics [1 / 100, 1 / 100] 5 0).2.2 rfl⟩

/-- C9: the trade-ratio series is defined exactly on the intersection of
the two tickers' trading dates, and multiplying the ratio back by the
denominator close price recovers the numerator close price at every
aligned date with a nonzero denominator. -/
theorem C9_trade_ratio_inverts (histA histB : Series)
    (hne : (histA.dates ∩ histB.dates).Nonempty) :
    (tradeRatioOf histA histB).dates = histA.dates ∩ histB.dates ∧
    ∀ t ∈ histA.dates ∩ histB.dates, histB.val t ≠ 0 →
      (tradeRatioOf histA histB).val t * histB.val t = histA.val t := by
  refine ⟨rfl, fun t ht hb => ?_⟩
  exact div_mul_cancel₀ _ hb

/-- Close series of ticker A for the C9 witness. -/
def serA : Series := ⟨{1, 2}, fun t => if t = 1 then 10 else 12⟩

/-- Close series of ticker B for the C9 witness. -/
def serB : Series := ⟨{1, 3}, fun _ => 4⟩

/-- Witness for C9 on two concrete close series overlapping at date 1. -/
theorem C9_trade_ratio_inverts_witness :
    (tradeRatioOf serA serB).dates = serA.dates ∩ serB.dates ∧
    (tradeRatioOf serA serB).val 1 * serB.val 1 = serA.val 1 := by
  have h := C9_trade_ratio_inverts serA serB ⟨1, by decide⟩
  exact ⟨h.1, h.2 1 (by decide) (by norm_num [serB])⟩

/-- Adding a value to a sector bucket raises the total of all buckets by
exactly that value. -/
theorem sum_addToSector (sector : String) (value : ℚ) :
    ∀ l : List (String × ℚ),
      ((addToSector sector value l).map Prod.snd).sum = (l.map Prod.snd).sum + value := by
  intro l
  induction l with
  | nil => simp [addToSector]
  | cons a rest ih =>
    obtain ⟨s, v⟩ := a
    by_cases hs : s = sector
    · simp only [addToSector, if_pos hs, List.map_cons, List.sum_cons]
      ring
    · simp only [addToSector, if_neg hs, List.map_cons, List.sum_cons, ih]
      ring

/-- The valuation fold keeps the invariant that the sector buckets sum
to the running total. -/
theorem processStocks_invariant (univ : String → Option StockInfo) :
    ∀ (stocks : List (String × ℚ)) (acc : ℚ × List (String × ℚ)),
      (acc.2.map Prod.snd).sum = acc.1 →
      (((stocks.foldl (processStock univ) acc).2).map Prod.snd).sum =
        (stocks.foldl (processStock univ) acc).1 := by
  intro stocks
  induction stocks with
  | nil => intro acc h; exact h
  | cons st rest ih =>
    intro acc h
    simp only [List.foldl_cons]
    apply ih
    unfold processStock
    cases hu : univ st.1 with
    | none => exact h
    | some info => simp [sum_addToSector, h]

/-- C10: in every performance report, the values in `sector_allocation`
sum to `total_value` — each included stock's value lands in exactly one
sector bucket and in the running total. -/
theorem C10_sector_sum_eq_total (univ : String → Option StockInfo)
    (stocks : List (String × ℚ)) :
    (((processStocks univ stocks).2).map Prod.snd).sum = (processStocks univ stocks).1 :=
  processStocks_invariant univ stocks (0, []) (by simp)

/-- Every point of the cumulative-product curve is positive when the
start value is positive and every return exceeds -1. -/
theorem cumprodAux_pos (l : List ℚ) : ∀ acc : ℚ, 0 < acc → (∀ r ∈ l, -1 < r) →
    ∀ x ∈ cumprodAux acc l, 0 < x := by
  induction l with
  | nil => intro acc _ _ x hx; simp [cumprodAux] at hx
  | cons r rs ih =>
    intro acc hacc hr x hx
    have hpos : 0 < acc * (1 + r) := mul_pos hacc (by linarith [hr r (by simp)])
    simp only [cumprodAux, List.mem_cons] at hx
    rcases hx with rfl | hx
    · exact hpos
    · exact ih _ hpos (fun y hy => hr y (by simp [hy])) x hx

/-- Every drawdown against the running maximum of a positive curve is
nonpositive. -/
theorem zipWith_drawdown_nonpos :
    ∀ (c : List ℚ) (m : ℚ), (∀ x ∈ c, 0 < x) → 0 < m →
      ∀ d ∈ List.zipWith (fun c m => (c - m) / m) c (runningMaxAux m c), d ≤ 0 := by
  intro c
  induction c with
  | nil => intro m _ _ d hd; simp at hd
  | cons x xs ih =>
    intro m hc hm d hd
    simp only [runningMaxAux, List.zipWith_cons_cons, List.mem_cons] at hd
    have hmx : 0 < max m x := lt_max_iff.mpr (Or.inl hm)
    rcases hd with rfl | hd
    · have h1 : x - max m x ≤ 0 := by linarith [le_max_right m x]
      exact div_nonpos_iff.mpr (Or.inr ⟨h1, le_of_lt hmx⟩)
    · exact ih (max m x) (fun y hy => hc y (by simp [hy])) hmx d hd

/-- Folding `min` over a list never exceeds the start value. -/
theorem foldl_min_le (l : List ℚ) : ∀ a : ℚ, l.foldl min a ≤ a := by
  induction l with
  | nil => intro a; simp
  | cons x xs ih =>
    intro a
    simp only [List.foldl_cons]
    exact le_trans (ih (min a x)) (min_le_left a x)

/-- The minimum of a nonempty list of nonpositive values is
nonpositive. -/
theorem listMin_nonpos (l : List ℚ) (hne : l ≠ []) (h : ∀ x ∈ l, x ≤ 0) :
    listMin l ≤ 0 := by
  cases l with
  | nil => exact absurd rfl hne
  | cons x xs => exact le_trans (foldl_min_le xs x) (h x (by simp))

/-- C7: for every nonempty return series whose returns all exceed -1,
the maximum drawdown computed from the cumulative-product curve and its
running maximum is nonpositive. -/
theorem C7_max_drawdown_nonpos (returns : List ℚ) (hne : returns ≠ [])
    (h : ∀ r ∈ returns, -1 < r) : maxDrawdown returns ≤ 0 := by
  obtain ⟨r, rs, rfl⟩ := List.exists_cons_of_ne_nil hne
  have hcum : cumulativeReturns (r :: rs) = (1 * (1 + r)) :: cumprodAux (1 * (1 + r)) rs := rfl
  have hpos : ∀ x ∈ cumulativeReturns (r :: rs), 0 < x :=
    cumprodAux_pos (r :: rs) 1 one_pos h
  have hx : 0 < 1 * (1 + r) := by
    have := h r (by simp)
    nlinarith
  unfold maxDrawdown
  apply listMin_nonpos
  · rw [drawdowns, hcum]
    simp [runningMax, runningMaxAux]
  · intro d hd
    rw [drawdowns, hcum] at hd
    simp only [runningMax] at hd
    exact zipWith_drawdown_nonpos _ _ (by rw [← hcum]; exact hpos) hx d hd

/-- Witness for C7 at the spec's scenario series
[0.01, -0.02, 0.03, -0.01, 0.02]. -/
theorem C7_max_drawdown_nonpos_witness :
    maxDrawdown [1 / 100, -1 / 50, 3 / 100, -1 / 100, 1 / 50] ≤ 0 :=
  C7_max_drawdown_nonpos _ (by simp)
    (by intro r hr; fin_cases hr <;> norm_num)

/-- Folding `seriesAdd` accumulates the union of the date indexes. -/
theorem foldl_seriesAdd_dates (ss : List Series) :
    ∀ acc : Series,
      (ss.foldl seriesAdd acc).dates = acc.dates ∪ ss.foldr (fun s u => s.dates ∪ u) ∅ := by
  induction ss with
  | nil => intro acc; simp
  | cons s ss ih =>
    intro acc
    simp only [List.foldl_cons, List.foldr_cons, ih (seriesAdd acc s)]
    rw [show (seriesAdd acc s).dates = acc.dates ∪ s.dates from rfl]
    rw [Finset.union_assoc]

/-- Folding `seriesAdd` sums the values pointwise, a series missing a
date contributing the fill value 0, provided the accumulator is 0 off
its own index. -/
theorem foldl_seriesAdd_val (ss : List Series) :
    ∀ (acc : Series) (t : ℕ), (∀ u, u ∉ acc.dates → acc.val u = 0) →
      (ss.foldl seriesAdd acc).val t =
        acc.val t + (ss.map (fun s => if t ∈ s.dates then s.val t else 0)).sum := by
  induction ss with
  | nil => intro acc t _; simp
  | cons s ss ih =>
    intro acc t hinv
    have hinv2 : ∀ u, u ∉ (seriesAdd acc s).dates → (seriesAdd acc s).val u = 0 := by
      intro u hu
      have hu2 : u ∉ acc.dates ∧ u ∉ s.dates := by
        simpa [seriesAdd, not_or] using hu
      simp [seriesAdd, hu2.1, hu2.2]
    simp only [List.foldl_cons, List.map_cons, List.sum_cons]
    rw [ih (seriesAdd acc s) t hinv2]
    by_cases ha : t ∈ acc.dates
    · simp only [seriesAdd, if_pos ha]
      ring
    · simp only [seriesAdd, if_neg ha]
      rw [hinv t ha]
      ring

/-- C8: the aggregated weighted daily-return series is indexed by the
union of the constituents' return dates, and at every date its value is
the sum over the constituents of weight times that constituent's return,
a constituent with no return at the date contributing 0 instead of
removing the date. -/
theorem C8_aggregate_union_fill (constituents : List (List (ℕ × ℚ) × ℚ)) :
    (aggregateReturns constituents).dates = datesUnion constituents ∧
    ∀ t ∈ datesUnion constituents,
      (aggregateReturns constituents).val t =
        (constituents.map (fun c =>
          if t ∈ (returnsSeries c.1).dates then c.2 * (returnsSeries c.1).val t else 0)).sum := by
  have hfold : aggregateReturns constituents =
      (constituents.map (fun c => scaleSeries c.2 (returnsSeries c.1))).foldl seriesAdd
        emptySeries := by
    unfold aggregateReturns
    rw [List.foldl_map]
  constructor
  · rw [hfold, foldl_seriesAdd_dates]
    rw [show emptySeries.dates = ∅ from rfl, Finset.empty_union, List.foldr_map]
    rfl
  · intro t ht
    rw [hfold, foldl_seriesAdd_val _ emptySeries t (fun u _ => rfl)]
    rw [show emptySeries.val t = 0 from rfl, zero_add, List.map_map]
    rfl

/-- Concrete constituents for the C8 witness: two price histories whose
return calendars overlap only partially. -/
def consW : List (List (ℕ × ℚ) × ℚ) :=
  [([(1, 10), (2, 11), (3, 11)], 1 / 2), ([(2, 20), (3, 10)], 1 / 2)]

/-- Witness for C8 at `consW` and date 2, where only the first
constituent has a return. -/
theorem C8_aggregate_union_fill_witness :
    (aggregateReturns consW).dates = datesUnion consW ∧
    (aggregateReturns consW).val 2 =
      (consW.map (fun c =>
        if 2 ∈ (returnsSeries c.1).dates then c.2 * (returnsSeries c.1).val 2 else 0)).sum :=
  ⟨(C8_aggregate_union_fill consW).1,
    (C8_aggregate_union_fill consW).2 2 (by decide)⟩

/-- A list's sum is at most its length times an upper bound on its
elements. -/
theorem listSum_le (l : List ℚ) (c : ℚ) (h : ∀ x ∈ l, x ≤ c) :
    l.sum ≤ (l.length : ℚ) * c := by
  induction l with
  | nil => simp
  | cons a t ih =>
    simp only [List.sum_cons, List.length_cons]
    have ha := h a (by simp)
    have ht := ih (fun x hx => h x (by simp [hx]))
    push_cast
    linarith

/-- The mean of a nonempty list is at most an upper bound on its
elements. -/
theorem listMean_le (l : List ℚ) (c : ℚ) (hne : l ≠ []) (h : ∀ x ∈ l, x ≤ c) :
    listMean l ≤ c := by
  have hlen : 0 < (l.length : ℚ) := by exact_mod_cast List.length_pos.mpr hne
  rw [listMean, div_le_iff₀ hlen]
  calc l.sum ≤ (l.length : ℚ) * c := listSum_le l c h
    _ = c * (l.length : ℚ) := mul_comm _ _

/-- On a sorted list, the lower order statistic is at most the linearly
interpolated value towards the next order statistic (with the clipped
out-of-range fallback), for a nonnegative interpolation weight. -/
theorem getD_le_interp (s : List ℚ) (hs : s.Sorted (· ≤ ·)) (i : ℕ)
    (hi : i < s.length) (frac : ℚ) (hfrac : 0 ≤ frac) :
    s.getD i 0 ≤ s.getD i 0 + frac * (s.getD (i + 1) (s.getD i 0) - s.getD i 0) := by
  have hle : s.getD i 0 ≤ s.getD (i + 1) (s.getD i 0) := by
    by_cases h1 : i + 1 < s.length
    · rw [List.getD_eq_getElem s 0 hi, List.getD_eq_getElem s _ h1]
      have := @List.Sorted.rel_get_of_lt ℚ (· ≤ ·) s hs ⟨i, hi⟩ ⟨i + 1, h1⟩
        (by simp [Fin.mk_lt_mk])
      simpa using this
    · rw [List.getD_eq_default s (s.getD i 0) (by omega)]
  nlinarith [mul_nonneg hfrac (sub_nonneg.mpr hle)]

/-- The percentile of a nonempty data set is at least one of its
elements: the order statistic at the floor of the virtual index. -/
theorem exists_le_percentileOf (xs : List ℚ) (q : ℚ) (hne : xs ≠ [])
    (hq0 : 0 ≤ q) (hq1 : q ≤ 100) :
    ∃ x ∈ xs, x ≤ percentileOf xs q := by
  have hsorted : (sortedOf xs).Sorted (· ≤ ·) := List.sorted_insertionSort _ xs
  have hlenpos : 0 < (sortedOf xs).length := by
    rw [show (sortedOf xs).length = xs.length from (List.perm_insertionSort _ xs).length_eq]
    exact List.length_pos.mpr hne
  have hn1 : (1 : ℚ) ≤ ((sortedOf xs).length : ℚ) := by exact_mod_cast hlenpos
  have hidx0 : 0 ≤ pIndex xs q := by
    unfold pIndex
    exact mul_nonneg (div_nonneg hq0 (by norm_num)) (by linarith)
  have hfloor0 : 0 ≤ ⌊pIndex xs q⌋ := Int.floor_nonneg.mpr hidx0
  have hple : (pLow xs q : ℚ) ≤ pIndex xs q :=
    calc (pLow xs q : ℚ) = ((⌊pIndex xs q⌋ : ℤ) : ℚ) := by
          unfold pLow
          exact_mod_cast congrArg (fun z : ℤ => (z : ℚ)) (Int.toNat_of_nonneg hfloor0)
      _ ≤ pIndex xs q := Int.floor_le _
  have hidxle : pIndex xs q ≤ ((sortedOf xs).length : ℚ) - 1 := by
    unfold pIndex
    have hq100 : q / 100 ≤ 1 := by
      rw [div_le_one (by norm_num : (0 : ℚ) < 100)]
      exact hq1
    have hday : (0 : ℚ) ≤ ((sortedOf xs).length : ℚ) - 1 := by linarith
    calc q / 100 * (((sortedOf xs).length : ℚ) - 1) ≤
        1 * (((sortedOf xs).length : ℚ) - 1) := mul_le_mul_of_nonneg_right hq100 hday
      _ = ((sortedOf xs).length : ℚ) - 1 := one_mul _
  have hplt : pLow xs q < (sortedOf xs).length := by
    by_contra hcon
    push_neg at hcon
    have : ((sortedOf xs).length : ℚ) ≤ (pLow xs q : ℚ) := by exact_mod_cast hcon
    linarith [hple, hidxle]
  have hfrac : 0 ≤ pIndex xs q - (pLow xs q : ℚ) := by linarith
  have hlo_le : (sortedOf xs).getD (pLow xs q) 0 ≤ percentileOf xs q := by
    unfold percentileOf
    exact getD_le_interp (sortedOf xs) hsorted (pLow xs q) hplt _ hfrac
  have hlo_mem : (sortedOf xs).getD (pLow xs q) 0 ∈ sortedOf xs := by
    rw [List.getD_eq_getElem _ _ hplt]
    exact List.getElem_mem hplt
  refine ⟨(sortedOf xs).getD (pLow xs q) 0, ?_, hlo_le⟩
  unfold sortedOf at hlo_mem
  simpa using hlo_mem

/-- C6: for every nonempty return series, `CVaR_95` is the mean of the
returns at or below the 5th-percentile `VaR_95` cutoff, and that tail
mean never exceeds the cutoff itself. -/
theorem C6_cvar_tail_mean (returns : List ℚ) (hne : returns ≠ []) :
    calcCvar returns (95 / 100) =
      listMean (returns.filter (fun r => r ≤ calcVar returns (95 / 100))) ∧
    calcCvar returns (95 / 100) ≤ calcVar returns (95 / 100) := by
  refine ⟨rfl, ?_⟩
  obtain ⟨x, hx, hxle⟩ :=
    exists_le_percentileOf returns ((1 - 95 / 100) * 100) hne (by norm_num) (by norm_num)
  have hxle2 : x ≤ calcVar returns (95 / 100) := hxle
  have hmem : x ∈ returns.filter (fun r => r ≤ calcVar returns (95 / 100)) :=
    List.mem_filter.mpr ⟨hx, by simpa using hxle2⟩
  have hfilne : returns.filter (fun r => r ≤ calcVar returns (95 / 100)) ≠ [] :=
    List.ne_nil_of_mem hmem
  apply listMean_le _ _ hfilne
  intro y hy
  simpa using (List.mem_filter.mp hy).2

/-- Witness for C6 on a concrete three-observation return series. -/
theorem C6_cvar_tail_mean_witness :
    calcCvar [-1 / 10, 1 / 20, 1 / 5] (95 / 100) =
      listMean (([-1 / 10, 1 / 20, 1 / 5] : List ℚ).filter
        (fun r => r ≤ calcVar [-1 / 10, 1 / 20, 1 / 5] (95 / 100))) ∧
    calcCvar [-1 / 10, 1 / 20, 1 / 5] (95 / 100) ≤
      calcVar [-1 / 10, 1 / 20, 1 / 5] (95 / 100) :=
  C6_cvar_tail_mean _ (by simp)

end Portfolio
